import Mathlib

/-!
Verification of the `etch` performance-benchmark scripts (`src/performance/*.py`)
against their natural-language specification.

The Python scripts are shallowly embedded:
* Python integers are `Int`; Python `//` is `Int.fdiv` and `%` is `Int.fmod`
  (floor division and sign-of-divisor modulus, exactly Python's conventions).
* The `random` module is modelled abstractly: an `Env` fixes, for every seed,
  the infinite sequence of values `randint` produces after that seed
  (`Env.seeded`), together with the sequence produced by a generator that was
  never seeded explicitly (`Env.unseeded`, which in CPython depends on OS
  entropy and therefore varies between executions).  `RandState` is the
  mutable module state: the current draw family and a position in it.
* `for` loops become `forLoop` (pure state) or `forLoopM` (state in `Option`,
  used where the Python code could raise: division by zero, bad list index,
  type error on `+`).  `forLoop step n s` runs iterations `0, 1, …, n-1`.
* `print` output is a `List OutLine`, one entry per printed line.
-/

namespace Etch

/-- Python `str(n)` for an integer, as a list of characters. -/
def pyStrOfInt (n : Int) : List Char :=
  if n < 0 then '-' :: Nat.toDigits 10 (-n).toNat else Nat.toDigits 10 n.toNat

/-- Python floor division `a // b`, with the `ZeroDivisionError` branch made
explicit as `none`. -/
def pyFloorDiv (a b : Int) : Option Int :=
  if b = 0 then none else some (a.fdiv b)

/-- Python modulus `a % b`, with the `ZeroDivisionError` branch made explicit
as `none`. -/
def pyMod (a b : Int) : Option Int :=
  if b = 0 then none else some (a.fmod b)

/-- Translate a Python sequence index (possibly negative) for a sequence of
length `len` into a Lean index, `none` when out of range (`IndexError`). -/
def pyIndex (len : Nat) (i : Int) : Option Nat :=
  let j := if i < 0 then i + len else i
  if 0 ≤ j ∧ j < len then some j.toNat else none

/-- Python `l[i]` on a list, `IndexError` as `none`. -/
def pyGet (l : List Int) (i : Int) : Option Int :=
  (pyIndex l.length i).bind fun j => l.get? j

/-- Python `l[i] = v` on a list, `IndexError` as `none`. -/
def pySet (l : List Int) (i : Int) (v : Int) : Option (List Int) :=
  (pyIndex l.length i).map fun j => l.set j v

/-- One printed line: Python `print` of an integer or of a string. -/
inductive OutLine : Type where
  | int (n : Int)
  | str (s : List Char)
deriving DecidableEq

/-- A family of draws: argument `k` is the position in the pseudo-random
sequence, the other two are the `randint` bounds. -/
def DrawFn : Type := Nat → Int → Int → Int

/-- Abstract model of the `random` module for one process execution:
`seeded s` is the draw sequence after `random.seed(s)` (fixed by the Mersenne
Twister algorithm, so identical across executions), `unseeded` is the draw
sequence of a generator that was never explicitly seeded (seeded from OS
entropy at import time, so it varies between executions). -/
structure Env : Type where
  seeded : Nat → DrawFn
  unseeded : DrawFn

/-- The `random` module state: current draw family and position. -/
structure RandState : Type where
  fn : DrawFn
  pos : Nat

/-- `random.seed(s)`. -/
def Env.seedState (env : Env) (s : Nat) : RandState :=
  ⟨env.seeded s, 0⟩

/-- The module state at process start, before any `random.seed` call. -/
def Env.initState (env : Env) : RandState :=
  ⟨env.unseeded, 0⟩

/-- `random.randint(lo, hi)`: a draw, and the advanced module state. -/
def randint (st : RandState) (lo hi : Int) : Int × RandState :=
  (st.fn st.pos lo hi, ⟨st.fn, st.pos + 1⟩)

/-- A draw family honours the `randint` contract: the result lies in
`[lo, hi]` whenever `lo ≤ hi`. -/
def ValidFn (f : DrawFn) : Prop :=
  ∀ k lo hi, lo ≤ hi → lo ≤ f k lo hi ∧ f k lo hi ≤ hi

/-- Every draw family of the environment honours the `randint` contract. -/
def ValidEnv (env : Env) : Prop :=
  (∀ s, ValidFn (env.seeded s)) ∧ ValidFn env.unseeded

/-- `for i in range(n)` with loop state `σ`; iteration indices `0 … n-1`,
the last iteration outermost. -/
def forLoop {σ : Type} (step : Nat → σ → σ) : Nat → σ → σ
  | 0, s => s
  | n + 1, s => step n (forLoop step n s)

/-- `forLoop` for a loop body that can raise. -/
def forLoopM {σ : Type} (step : Nat → σ → Option σ) : Nat → σ → Option σ
  | 0, s => some s
  | n + 1, s => (forLoopM step n s).bind (step n)

theorem forLoop_inv {σ : Type} (P : σ → Prop) (step : Nat → σ → σ)
    (h : ∀ i s, P s → P (step i s)) :
    ∀ n s, P s → P (forLoop step n s) := by
  intro n
  induction n with
  | zero => intro s hs; exact hs
  | succ n ih => intro s hs; exact h n _ (ih s hs)

theorem forLoopM_eq_some {σ : Type} (step : Nat → σ → σ)
    (stepM : Nat → σ → Option σ) (hs : ∀ i s, stepM i s = some (step i s)) :
    ∀ n s, forLoopM stepM n s = some (forLoop step n s) := by
  intro n
  induction n with
  | zero => intro s; rfl
  | succ n ih =>
      intro s
      simp only [forLoopM, forLoop, ih s, Option.bind_some]
      exact hs n _

theorem forLoopM_inv {σ : Type} (P : σ → Prop) (stepM : Nat → σ → Option σ)
    (h : ∀ i s, P s → ∃ s', stepM i s = some s' ∧ P s') :
    ∀ n s, P s → ∃ s', forLoopM stepM n s = some s' ∧ P s' := by
  intro n
  induction n with
  | zero => intro s hs; exact ⟨s, rfl, hs⟩
  | succ n ih =>
      intro s hs
      obtain ⟨t, ht, hPt⟩ := ih s hs
      obtain ⟨t', ht', hPt'⟩ := h n t hPt
      exact ⟨t', by simp [forLoopM, ht, ht'], hPt'⟩

/-- Peel the first iteration off a `forLoop` whose body ignores the index. -/
theorem forLoop_succ_first {σ : Type} (step : Nat → σ → σ)
    (hstep : ∀ i j s, step i s = step j s) :
    ∀ n s, forLoop step (n + 1) s = forLoop step n (step 0 s) := by
  intro n
  induction n with
  | zero => intro s; rfl
  | succ n ih =>
      intro s
      show step (n + 1) (forLoop step (n + 1) s) = step n (forLoop step n (step 0 s))
      rw [ih s, hstep (n + 1) n]

/-- Bound used for loop termination: Python `a % b` has absolute value
smaller than `|b|` whenever `b ≠ 0`. -/
theorem natAbs_fmod_lt (a b : Int) (hb : b ≠ 0) :
    (Int.fmod a b).natAbs < b.natAbs := by
  rcases lt_trichotomy b 0 with hneg | hzero | hpos
  · match a, b with
    | Int.ofNat 0, Int.negSucc n =>
        show (Int.fmod 0 (Int.negSucc n)).natAbs < (Int.negSucc n).natAbs
        rw [Int.zero_fmod]
        simp [Int.natAbs_negSucc]
    | Int.ofNat (Nat.succ m), Int.negSucc n =>
        show (Int.subNatNat (m % Nat.succ n) n).natAbs < (Int.negSucc n).natAbs
        rw [Int.subNatNat_eq_coe, Int.natAbs_negSucc]
        have h1 : m % Nat.succ n < Nat.succ n := Nat.mod_lt _ (Nat.succ_pos n)
        generalize m % Nat.succ n = a at h1 ⊢
        omega
    | Int.negSucc m, Int.negSucc n =>
        show (-(Int.ofNat (Nat.succ m % Nat.succ n))).natAbs < (Int.negSucc n).natAbs
        rw [Int.natAbs_negSucc, Int.natAbs_neg, Int.ofNat_eq_coe, Int.natAbs_ofNat]
        exact Nat.mod_lt _ (Nat.succ_pos n)
    | Int.ofNat m, Int.ofNat n =>
        rw [Int.ofNat_eq_coe] at hneg
        omega
  · exact absurd hzero hb
  · have h1 : 0 ≤ Int.fmod a b := Int.fmod_nonneg' a hpos
    have h2 : Int.fmod a b < b := Int.fmod_lt_of_pos a hpos
    omega

/-! ### `result_operations.py` : `divide` -/

/-- `divide(a, b)` from `result_operations.py`.  The Python function returns a
heterogeneous pair (string tag, then string message or integer quotient);
the second component is embedded as a sum. -/
def divide (a b : Int) : String × (String ⊕ Int) :=
  if b = 0 then ("error", Sum.inl "Division by zero")
  else ("ok", Sum.inr (a.fdiv b))

/-! ### `math_intensive.py` : `is_prime` and `gcd` -/

/-- The `while i * i <= n` trial-division loop of `is_prime`. -/
def primeLoop (n : Int) (i : Int) : Int :=
  if i * i ≤ n then
    if n.fmod i = 0 ∨ n.fmod (i + 2) = 0 then 0
    else primeLoop n (i + 6)
  else 1
termination_by (n + 1 - i).toNat
decreasing_by
  rename_i h _
  have hin : i ≤ n := by
    rcases le_or_lt i 0 with h0 | h0
    · exact le_trans h0 (le_trans (mul_self_nonneg i) h)
    · calc i = i * 1 := (mul_one i).symm
        _ ≤ i * i := by exact mul_le_mul_of_nonneg_left h0 (le_of_lt h0)
        _ ≤ n := h
  omega

/-- `is_prime(n)` from `math_intensive.py`. -/
def is_prime (n : Int) : Int :=
  if n ≤ 1 then 0
  else if n ≤ 3 then 1
  else if n.fmod 2 = 0 ∨ n.fmod 3 = 0 then 0
  else primeLoop n 5

/-- `gcd(a, b)` from `math_intensive.py`: the iterative Euclidean remainder
loop, written as the equivalent tail recursion. -/
def gcd (a b : Int) : Int :=
  if h : b = 0 then a
  else gcd b (a.fmod b)
termination_by b.natAbs
decreasing_by exact natAbs_fmod_lt a b h

/-- `gcd` with the modulus operation checked: `none` would mean the loop body
hit a `ZeroDivisionError`. -/
def gcdChecked (a b : Int) : Option Int :=
  if h : b = 0 then some a
  else
    match h' : pyMod a b with
    | none => none
    | some r => gcdChecked b r
termination_by b.natAbs
decreasing_by
  simp only [pyMod, if_neg h] at h'
  rw [← Option.some_inj.mp h']
  exact natAbs_fmod_lt a b h

/-! ### `function_calls.py` : `fibonacci`, `simple_math`, `array_sum` -/

/-- `fibonacci(n)` from `function_calls.py`. -/
def fibonacci (n : Int) : Int :=
  if n ≤ 1 then n
  else if n > 46 then 0
  else (fibonacci (n - 1)).fmod 1000000 + (fibonacci (n - 2)).fmod 1000000
termination_by n.toNat
decreasing_by
  all_goals rename_i h1 h2
  all_goals omega

/-- `fibonacci` with an explicit call-stack depth (fuel): `none` means the
recursion would have needed more nested calls than the fuel allows. -/
def fibonacciFuel : Nat → Int → Option Int
  | 0, _ => none
  | fuel + 1, n =>
      if n ≤ 1 then some n
      else if n > 46 then some 0
      else
        (fibonacciFuel fuel (n - 1)).bind fun fib1 =>
          (fibonacciFuel fuel (n - 2)).map fun fib2 =>
            fib1.fmod 1000000 + fib2.fmod 1000000

/-- `simple_math(a, b)` from `function_calls.py`. -/
def simple_math (a b : Int) : Int := a * b + a - b

/-- `array_sum(arr)` from `function_calls.py`. -/
def array_sum (arr : List Int) : Int :=
  forLoop (fun i sum_val => sum_val + arr.getD i 0) arr.length 0

/-! ### `memory_allocation.py` : `create_array` -/

/-- `create_array(size)` from `memory_allocation.py`. -/
def create_array (size : Int) : List Int :=
  forLoop (fun i arr => arr.set i (i : Int)) size.toNat
    (List.replicate size.toNat 0)

/-! ### Script bodies -/

/-- Loop body of `arithmetic_operations.main` (state: module state, `result`). -/
def arithStep : Nat → RandState × Int → RandState × Int :=
  fun _ s =>
    let (a, st) := randint s.1 1 100
    let (b, st) := randint st 1 100
    let sum := a + b
    let diff := a - b
    let prod := a * b
    let quotient := a.fdiv (b.fmod 10 + 1)
    (st, s.2 + sum + diff + prod + quotient)

/-- `arithmetic_operations.main`'s accumulator after `n` iterations. -/
def arithResult (env : Env) (n : Nat) : Int :=
  (forLoop arithStep n (env.seedState 42, 0)).2

/-- `arithmetic_operations.main`. -/
def arithmetic_main (env : Env) : List OutLine :=
  [OutLine.int (arithResult env 100000)]

/-- Loop body of `arithmetic_operations.main` with the division and modulus
operations checked (`none` would be a `ZeroDivisionError`). -/
def arithStepChecked : Nat → RandState × Int → Option (RandState × Int) :=
  fun _ s =>
    let (a, st) := randint s.1 1 100
    let (b, st) := randint st 1 100
    let sum := a + b
    let diff := a - b
    let prod := a * b
    (pyMod b 10).bind fun m =>
      (pyFloorDiv a (m + 1)).map fun quotient =>
        (st, s.2 + sum + diff + prod + quotient)

/-- `arithmetic_operations.main` with checked arithmetic. -/
def arithmetic_mainChecked (env : Env) : Option (List OutLine) :=
  (forLoopM arithStepChecked 100000 (env.seedState 42, 0)).map
    fun s => [OutLine.int s.2]

/-- Loop body of `array_operations.main` (state: module state, `arr`,
`sum_val`); list accesses are checked (`none` is an `IndexError`). -/
def arrayStep : Nat → RandState × List Int × Int →
    Option (RandState × List Int × Int) :=
  fun i s =>
    let (idx, st) := randint s.1 0 9
    let arr := s.2.1
    (pyGet arr idx).bind fun arr_val =>
      let sum_val := s.2.2 + arr_val
      let bounded_sum := sum_val.fmod 100000
      let bounded_arr := arr_val.fmod 100000
      let new_val := (bounded_sum + bounded_arr).fmod 100000
      (pySet arr idx new_val).map fun arr =>
        if i % 1000 = 0 then
          let bounded := sum_val.fmod 100000
          (st, arr, (bounded + 10).fmod 100000)
        else (st, arr, sum_val)

/-- The state of `array_operations.main` after its loop. -/
def arrayLoop (env : Env) : Option (RandState × List Int × Int) :=
  forLoopM arrayStep 50000 (env.seedState 42, [0, 1, 2, 3, 4, 5, 6, 7, 8, 9], 0)

/-- `array_operations.main`: prints `sum_val`, then every element of `arr`. -/
def array_main (env : Env) : Option (List OutLine) :=
  (arrayLoop env).map fun s =>
    OutLine.int s.2.2 :: s.2.1.map OutLine.int

/-- Loop body of `function_calls.main` (state: module state, `res`). -/
def functionCallsStep : Nat → RandState × Int → RandState × Int :=
  fun i s =>
    let (a, st) := randint s.1 1 100
    let (b, st) := randint st 1 100
    let res := s.2 + simple_math a b
    let arr := [a, b, a + b, a - b, a * 2]
    let res := res + (array_sum arr).fmod 10
    let res := if i % 1000 = 0 then res + fibonacci (a.fmod 10) else res
    (st, res)

/-- `function_calls.main`. -/
def function_calls_main (env : Env) : List OutLine :=
  [OutLine.int (forLoop functionCallsStep 10000 (env.seedState 42, 0)).2]

/-- Loop body of `math_intensive.main`; the Python loop runs
`for i in range(1, 5000)`, so iteration index `k` carries `i = k + 1`
(state: module state, `prime_count`, `gcd_sum`). -/
def mathStep : Nat → RandState × Int × Int → RandState × Int × Int :=
  fun k s =>
    let i : Int := (k : Int) + 1
    let prime_count := if is_prime i = 1 then s.2.1 + 1 else s.2.1
    let (a, st) := randint s.1 1 1000
    let (b, st) := randint st 1 1000
    let gcd_sum := s.2.2 + gcd a b
    let mod_result := (i * i + a * b).fmod 1000
    (st, prime_count, gcd_sum + mod_result)

/-- `math_intensive.main`. -/
def math_main (env : Env) : List OutLine :=
  let s := forLoop mathStep 4999 (env.seedState 42, 0, 0)
  [OutLine.int s.2.1, OutLine.int s.2.2]

/-- Loop body of `memory_allocation.main` (state: module state,
`total_length`). -/
def memoryStep : Nat → RandState × Int → RandState × Int :=
  fun _ s =>
    let (size, st) := randint s.1 10 50
    let arr := create_array size
    let bounded_len := s.2
    let bounded_arr_len : Int := arr.length
    let total_length := bounded_len + bounded_arr_len
    let temp1 : List Int := [1, 2, 3, 4, 5]
    let temp2 := temp1 ++ arr.take 5
    let bounded_len2 := total_length
    let bounded_temp_len : Int := temp2.length
    (st, bounded_len2 + bounded_temp_len)

/-- `memory_allocation.main`. -/
def memory_main (env : Env) : List OutLine :=
  [OutLine.int (forLoop memoryStep 1000 (env.seedState 42, 0)).2]

/-- Body of the inner `for j in range(500)` loop of `nested_loops.main`,
for outer index `i`. -/
def nestedInnerStep (i : Nat) : Nat → Int → Int :=
  fun j sum_val =>
    let sum_val := sum_val + (i : Int) * (j : Int)
    if sum_val > 1000000 then sum_val.fmod 1000000 else sum_val

/-- Body of the outer `for i in range(1000)` loop of `nested_loops.main`. -/
def nestedOuterStep : Nat → Int → Int :=
  fun i sum_val => forLoop (nestedInnerStep i) 500 sum_val

/-- `nested_loops.main`'s accumulator after `oi` full outer iterations
followed by `ij` further inner iterations. -/
def nestedAt (oi ij : Nat) : Int :=
  forLoop (nestedInnerStep oi) ij (forLoop nestedOuterStep oi 0)

/-- `nested_loops.main` (uses no randomness at all). -/
def nested_main : List OutLine :=
  [OutLine.int (forLoop nestedOuterStep 1000 0)]

/-- Loop body of `option_operations.main` (state: module state,
`success_count`, `none_count`). -/
def optionStep : Nat → RandState × Int × Int → RandState × Int × Int :=
  fun _ s =>
    let (val, st) := randint s.1 0 100
    let opt : Option Int := if val > 50 then some val else none
    match opt with
    | some v => (st, s.2.1 + v, s.2.2)
    | none => (st, s.2.1, s.2.2 + 1)

/-- `option_operations.main`. -/
def option_main (env : Env) : List OutLine :=
  let s := forLoop optionStep 50000 (env.seedState 42, 0, 0)
  [OutLine.int s.2.1, OutLine.int s.2.2]

/-- The `Counter` class of `ref_operations.py`. -/
structure Counter : Type where
  value : Int

/-- `increment(counter)` from `ref_operations.py`. -/
def increment (counter : Counter) : Counter :=
  { counter with value := counter.value + 1 }

/-- Loop body of `ref_operations.main` (state: module state, `total`);
each iteration builds `Counter(0)` and increments it ten times. -/
def refStep : Nat → RandState × Int → RandState × Int :=
  fun _ s =>
    let counter := Counter.mk 0
    let counter := forLoop (fun _ c => increment c) 10 counter
    (s.1, s.2 + counter.value)

/-- `ref_operations.main`: seeds the generator but never draws from it. -/
def ref_main (env : Env) : List OutLine :=
  [OutLine.int (forLoop refStep 10000 (env.seedState 42, 0)).2]

/-- Loop body of `result_operations.main` (state: module state,
`success_sum`, `error_count`); adding the second tuple component to an
integer is checked (`none` would be a `TypeError`). -/
def resultStep : Nat → RandState × Int × Int → Option (RandState × Int × Int) :=
  fun _ s =>
    let (a, st) := randint s.1 1 100
    let (b, st) := randint st 0 10
    let result := divide a b
    if result.1 = "ok" then
      match result.2 with
      | Sum.inr q => some (st, s.2.1 + q, s.2.2)
      | Sum.inl _ => none
    else some (st, s.2.1, s.2.2 + 1)

/-- The state of `result_operations.main` after its loop. -/
def resultLoop (env : Env) : Option (RandState × Int × Int) :=
  forLoopM resultStep 50000 (env.seedState 42, 0, 0)

/-- `result_operations.main`. -/
def result_main (env : Env) : Option (List OutLine) :=
  (resultLoop env).map fun s => [OutLine.int s.2.1, OutLine.int s.2.2]

/-- Loop body of `string_operations.main` (state: module state, `res`,
`count`).  Note `main` never calls `random.seed`. -/
def stringStep : Nat → RandState × List Char × Int → RandState × List Char × Int :=
  fun _ s =>
    let (num, st) := randint s.1 0 9
    let str_num := pyStrOfInt num
    let res := s.2.1 ++ str_num ++ [',']
    (st, res, s.2.2 + (res.length : Int))

/-- `string_operations.main`: draws from the generator without seeding it,
so its output depends on the unseeded (OS-entropy) draw sequence. -/
def string_main (env : Env) : List OutLine :=
  let s := forLoop stringStep 5000 (env.initState, [], 0)
  [OutLine.int s.2.2, OutLine.str s.2.1, OutLine.int (s.2.1.length : Int)]

/-- `tuple_operations.main` (pure: no randomness). -/
def tuple_main : List OutLine :=
  let iterations := 10000
  let sum1 := forLoop
    (fun _ s => let t : List Int := [1, 2, 3, 4, 5]; s + t.getD 0 0)
    iterations (0 : Int)
  let base : List Int := [10, 20, 30, 40, 50, 60, 70, 80, 90, 100]
  let sum2 := forLoop
    (fun _ s =>
      let a := base.getD 0 0
      let b := base.getD 3 0
      let c := base.getD 7 0
      let d := base.getD 9 0
      s + a + b + c + d)
    iterations (0 : Int)
  let source : List Int := [1, 2, 3, 4, 5, 6, 7, 8, 9, 10]
  let sum3 := forLoop
    (fun _ s =>
      let s1 := (source.drop 2).take 3
      let s2 := source.take 3
      let s3 := source.drop 7
      let a := s1.getD 0 0
      let b := s2.getD 0 0
      let c := s3.getD 0 0
      s + a + b + c)
    iterations (0 : Int)
  let left : List Int := [1, 2, 3, 4, 5]
  let right : List Int := [6, 7, 8, 9, 10]
  let sum4 := forLoop
    (fun _ s =>
      let combined := left ++ right
      let a := combined.getD 0 0
      let b := combined.getD 9 0
      s + a + b)
    iterations (0 : Int)
  let t1 : List Int := [1, 2, 3]
  let t2 : List Int := [4, 5, 6]
  let sum5 := forLoop
    (fun _ s =>
      let joined := t1 ++ t2
      let slice_result := (joined.drop 1).take 4
      let a := slice_result.getD 0 0
      let b := slice_result.getD 3 0
      s + a + b)
    iterations (0 : Int)
  let total := sum1 + sum2 + sum3 + sum4 + sum5
  [OutLine.int sum1, OutLine.int sum2, OutLine.int sum3, OutLine.int sum4,
   OutLine.int sum5,
   OutLine.str ("Total checksum: ".toList ++ pyStrOfInt total)]

/-! ### Concrete environments, used as witnesses and counterexamples -/

/-- The draw family that always returns the lower bound (a legal behaviour
of `randint`). -/
def loFn : DrawFn := fun _ lo _ => lo

/-- The draw family that always returns the upper bound (a legal behaviour
of `randint`). -/
def hiFn : DrawFn := fun _ _ hi => hi

/-- An environment whose draws are always the lower bound. -/
def envLo : Env := ⟨fun _ => loFn, loFn⟩

/-- An environment with the same seeded behaviour as `envLo` but different
unseeded (OS-entropy) behaviour: a second execution of the same process. -/
def envLoHi : Env := ⟨fun _ => loFn, hiFn⟩

/-- An environment whose draws are always the upper bound. -/
def envHi : Env := ⟨fun _ => hiFn, hiFn⟩

/-- Does a script's output contain a line that is not a plain integer? -/
def hasNonIntLine (out : List OutLine) : Bool :=
  out.any fun l => match l with
    | OutLine.int _ => false
    | OutLine.str _ => true

/-- `hasNonIntLine` for the scripts whose embedding can raise; an execution
that raised prints nothing non-integer. -/
def optHasNonIntLine (o : Option (List OutLine)) : Bool :=
  (o.map hasNonIntLine).getD false

/-- Whether each of the eleven scripts (in alphabetical order:
arithmetic, array, function_calls, math, memory, nested, option, ref,
result, string, tuple) writes a line that is not a plain integer. -/
def scriptNonIntFlags (env : Env) : List Bool :=
  [hasNonIntLine (arithmetic_main env),
   optHasNonIntLine (array_main env),
   hasNonIntLine (function_calls_main env),
   hasNonIntLine (math_main env),
   hasNonIntLine (memory_main env),
   hasNonIntLine nested_main,
   hasNonIntLine (option_main env),
   hasNonIntLine (ref_main env),
   optHasNonIntLine (result_main env),
   hasNonIntLine (string_main env),
   hasNonIntLine tuple_main]

/-! ### Helper lemmas -/

/-- Ten increments of a fresh `Counter(0)` give value 10. -/
theorem counter_ten :
    (forLoop (fun _ c => increment c) 10 (Counter.mk 0)).value = 10 := by
  rfl

/-- `ref_operations.main`'s accumulator formula. -/
theorem refLoop_total (st : RandState) (t : Int) :
    ∀ n : Nat, (forLoop refStep n (st, t)).2 = t + 10 * n := by
  intro n
  induction n with
  | zero => simp [forLoop]
  | succ n ih =>
      show (refStep n (forLoop refStep n (st, t))).2 = t + 10 * (n + 1)
      simp only [refStep, counter_ten, ih]
      ring

/-- `fibonacciFuel` computes `fibonacci` whenever the fuel exceeds the
recursion depth `min n.toNat 46`. -/
theorem fibonacciFuel_eq (fuel : Nat) :
    ∀ n : Int, min n.toNat 46 < fuel → fibonacciFuel fuel n = some (fibonacci n) := by
  induction fuel with
  | zero => intro n h; omega
  | succ fuel ih =>
      intro n h
      rw [fibonacci]
      by_cases h1 : n ≤ 1
      · simp [fibonacciFuel, h1]
      · by_cases h2 : n > 46
        · simp [fibonacciFuel, h1, h2]
        · have e1 : fibonacciFuel fuel (n - 1) = some (fibonacci (n - 1)) :=
            ih _ (by omega)
          have e2 : fibonacciFuel fuel (n - 2) = some (fibonacci (n - 2)) :=
            ih _ (by omega)
          simp [fibonacciFuel, h1, h2, e1, e2]

/-- `string_operations`' accumulated string only ever grows by appending:
whatever the draws, after any number of iterations it still starts with
what it started with. -/
theorem stringRes_grows :
    ∀ (n : Nat) (st : RandState) (res : List Char) (count : Int),
      ∃ t, (forLoop stringStep n (st, res, count)).2.1 = res ++ t := by
  intro n
  induction n with
  | zero => intro st res count; exact ⟨[], by simp [forLoop]⟩
  | succ n ih =>
      intro st res count
      obtain ⟨t, ht⟩ := ih st res count
      refine ⟨t ++ (pyStrOfInt ((forLoop stringStep n (st, res, count)).1.fn
        (forLoop stringStep n (st, res, count)).1.pos 0 9) ++ [',']), ?_⟩
      show (stringStep n (forLoop stringStep n (st, res, count))).2.1 = _
      simp [stringStep, randint, ht, List.append_assoc]

/-- Euclidean-step identity for `Int.gcd` on a nonnegative dividend and a
positive divisor. -/
theorem int_gcd_emod (a b : Int) (hb : 0 < b) (ha : 0 ≤ a) :
    Int.gcd b (a % b) = Int.gcd a b := by
  lift a to Nat using ha with A
  lift b to Nat using le_of_lt hb with B
  rw [← Int.ofNat_emod]
  show Nat.gcd B (A % B) = Nat.gcd A B
  rw [Nat.gcd_comm B, ← Nat.gcd_rec, Nat.gcd_comm]

/-- On nonnegative inputs, the script's `gcd` agrees with `Int.gcd`. -/
theorem gcd_nonneg_eq :
    ∀ (B : Nat) (b : Int), b.toNat ≤ B → 0 ≤ b → ∀ a : Int, 0 ≤ a →
      gcd a b = (Int.gcd a b : Int) := by
  intro B
  induction B with
  | zero =>
      intro b h1 h2 a ha
      have hb0 : b = 0 := by omega
      subst hb0
      rw [gcd]
      simp [Int.gcd, Int.natAbs_of_nonneg ha]
  | succ B ih =>
      intro b h1 h2 a ha
      by_cases hb : b = 0
      · subst hb
        rw [gcd]
        simp [Int.gcd, Int.natAbs_of_nonneg ha]
      · have hbpos : 0 < b := lt_of_le_of_ne h2 (Ne.symm hb)
        have hr0 : 0 ≤ a.fmod b := Int.fmod_nonneg' a hbpos
        have hrlt : a.fmod b < b := Int.fmod_lt_of_pos a hbpos
        rw [gcd]
        simp only [hb, dite_false]
        rw [ih (a.fmod b) (by omega) hr0 b h2]
        rw [Int.fmod_eq_emod a h2, int_gcd_emod a b hbpos ha]

/-- `gcdChecked` never takes the `ZeroDivisionError` branch: it always
computes `some (gcd a b)`. -/
theorem gcdChecked_eq :
    ∀ (B : Nat) (b : Int), b.natAbs ≤ B → ∀ a : Int,
      gcdChecked a b = some (gcd a b) := by
  intro B
  induction B with
  | zero =>
      intro b h a
      have hb0 : b = 0 := by omega
      subst hb0
      rw [gcdChecked, gcd]
      exact rfl
  | succ B ih =>
      intro b h a
      by_cases hb : b = 0
      · subst hb
        rw [gcdChecked, gcd]
        exact rfl
      · rw [gcdChecked, gcd]
        simp only [dif_neg hb]
        have hlt := natAbs_fmod_lt a b hb
        have step : pyMod a b = some (a.fmod b) := by simp [pyMod, hb]
        split
        · rename_i h'
          rw [step] at h'
          exact absurd h' (by simp)
        · rename_i r h'
          rw [step] at h'
          rw [← Option.some_inj.mp h']
          exact ih (a.fmod b) (by omega) b

/-- The checked arithmetic loop body always succeeds and agrees with the
unchecked one. -/
theorem arithStepChecked_eq (i : Nat) (s : RandState × Int) :
    arithStepChecked i s = some (arithStep i s) := by
  obtain ⟨st, r⟩ := s
  have h1 : (0 : Int) ≤ (st.fn (st.pos + 1) 1 100).fmod 10 :=
    Int.fmod_nonneg' _ (by norm_num)
  have h2 : (st.fn (st.pos + 1) 1 100).fmod 10 + 1 ≠ 0 := by omega
  simp [arithStepChecked, arithStep, randint, pyMod, pyFloorDiv, h2]

/-- One inner iteration of `nested_loops` always leaves the accumulator at
or below the modulus 1000000, whatever the incoming value. -/
theorem nestedInnerStep_le (i j : Nat) (s : Int) :
    nestedInnerStep i j s ≤ 1000000 := by
  show (if s + (i : Int) * (j : Int) > 1000000
      then (s + (i : Int) * (j : Int)).fmod 1000000
      else s + (i : Int) * (j : Int)) ≤ 1000000
  split
  · have := Int.fmod_lt_of_pos (s + (i : Int) * (j : Int))
      (show (0:Int) < 1000000 by norm_num)
    omega
  · omega

/-- After at least one inner iteration of `nested_loops`, the accumulator is
at most 1000000. -/
theorem nestedInner_le (i : Nat) :
    ∀ (n : Nat) (s : Int), 1 ≤ n → forLoop (nestedInnerStep i) n s ≤ 1000000 := by
  intro n s hn
  match n, hn with
  | n + 1, _ => exact nestedInnerStep_le i n _

/-- With every draw at its upper bound (`a = b = 100`), each iteration of
`arithmetic_operations.main` adds exactly `200 + 0 + 10000 + 100 = 10300`
to the accumulator, which is never reduced by any modulus. -/
theorem arith_hi_formula :
    ∀ (n p : Nat) (r : Int),
      forLoop arithStep n (⟨hiFn, p⟩, r) = (⟨hiFn, p + 2 * n⟩, r + 10300 * n) := by
  intro n
  induction n with
  | zero => intro p r; simp [forLoop]
  | succ n ih =>
      intro p r
      show arithStep n (forLoop arithStep n (⟨hiFn, p⟩, r)) = _
      rw [ih]
      have hq : (100 : Int).fdiv ((100 : Int).fmod 10 + 1) = 100 := by decide
      simp [arithStep, randint, hiFn, hq]
      constructor
      · omega
      · push_cast; ring

/-- Mapping plain integers to output lines yields no non-integer line. -/
theorem hasNonIntLine_map_int (xs : List Int) :
    hasNonIntLine (xs.map OutLine.int) = false := by
  induction xs with
  | nil => rfl
  | cons x xs ih =>
      simpa [hasNonIntLine] using ih

/-- `arithmetic_operations` prints only plain integers. -/
theorem arith_flags (env : Env) : hasNonIntLine (arithmetic_main env) = false := by
  simp [arithmetic_main, hasNonIntLine]

/-- `array_operations` prints only plain integers (when it prints at all). -/
theorem array_flags (env : Env) : optHasNonIntLine (array_main env) = false := by
  unfold array_main optHasNonIntLine
  cases harr : arrayLoop env with
  | none => rfl
  | some s =>
      simpa [hasNonIntLine] using hasNonIntLine_map_int s.2.1

/-- `function_calls` prints only plain integers. -/
theorem function_calls_flags (env : Env) :
    hasNonIntLine (function_calls_main env) = false := by
  simp [function_calls_main, hasNonIntLine]

/-- `math_intensive` prints only plain integers. -/
theorem math_flags (env : Env) : hasNonIntLine (math_main env) = false := by
  simp [math_main, hasNonIntLine]

/-- `memory_allocation` prints only plain integers. -/
theorem memory_flags (env : Env) : hasNonIntLine (memory_main env) = false := by
  simp [memory_main, hasNonIntLine]

/-- `nested_loops` prints only plain integers. -/
theorem nested_flags : hasNonIntLine nested_main = false := by
  simp [nested_main, hasNonIntLine]

/-- `option_operations` prints only plain integers. -/
theorem option_flags (env : Env) : hasNonIntLine (option_main env) = false := by
  simp [option_main, hasNonIntLine]

/-- `ref_operations` prints only plain integers. -/
theorem ref_flags (env : Env) : hasNonIntLine (ref_main env) = false := by
  simp [ref_main, hasNonIntLine]

/-- `result_operations` prints only plain integers (when it prints at all). -/
theorem result_flags (env : Env) : optHasNonIntLine (result_main env) = false := by
  unfold result_main optHasNonIntLine
  cases hres : resultLoop env with
  | none => rfl
  | some s => simp [hasNonIntLine]

/-- `string_operations` prints a non-integer line (the accumulated string). -/
theorem string_flags (env : Env) : hasNonIntLine (string_main env) = true := by
  simp [string_main, hasNonIntLine]

/-- `tuple_operations` prints a non-integer line (the checksum f-string). -/
theorem tuple_flags : hasNonIntLine tuple_main = true := by
  simp [tuple_main, hasNonIntLine]

/-- For a positive modulus, Python `n % m == 0` means exactly `m ∣ n`. -/
theorem fmod_eq_zero_iff_dvd (n m : Int) (hm : 0 < m) :
    n.fmod m = 0 ↔ m ∣ n := by
  rw [Int.fmod_eq_emod n (le_of_lt hm)]
  exact ⟨Int.dvd_of_emod_eq_zero, Int.emod_eq_zero_of_dvd⟩

/-- If `m` divides `n`, is small enough that `2 * m ≤ n`, but too large for
`m * m ≤ n`, then the cofactor `n / m` is a divisor whose square is at most
`n`. -/
theorem cofactor_small (n m : Int) (hm : 2 ≤ m) (hdvd : m ∣ n)
    (h2m : 2 * m ≤ n) (hbig : n < m * m) :
    ∃ d : Int, 2 ≤ d ∧ d * d ≤ n ∧ d ∣ n := by
  obtain ⟨c, hc⟩ := hdvd
  refine ⟨c, ?_, ?_, ⟨m, by rw [hc]; ring⟩⟩
  · nlinarith
  · nlinarith

/-- The trial-division loop returns 0 or 1. -/
theorem primeLoop_eq_zero_or_one :
    ∀ (fuel : Nat) (n i : Int), (n + 1 - i).toNat ≤ fuel →
      primeLoop n i = 0 ∨ primeLoop n i = 1 := by
  intro fuel
  induction fuel with
  | zero =>
      intro n i hfuel
      rw [primeLoop]
      by_cases hgo : i * i ≤ n
      · have hin : i ≤ n := by
          rcases le_or_lt i 0 with h0 | h0
          · exact le_trans h0 (le_trans (mul_self_nonneg i) hgo)
          · nlinarith
        omega
      · simp [hgo]
  | succ fuel ih =>
      intro n i hfuel
      rw [primeLoop]
      by_cases hgo : i * i ≤ n
      · by_cases hdiv : n.fmod i = 0 ∨ n.fmod (i + 2) = 0
        · simp [hgo, hdiv]
        · have hin : i ≤ n := by
            rcases le_or_lt i 0 with h0 | h0
            · exact le_trans h0 (le_trans (mul_self_nonneg i) hgo)
            · nlinarith
          simp only [hgo, if_true, hdiv, if_false]
          exact ih n (i + 6) (by omega)
      · simp [hgo]

/-- Correctness of the trial-division loop: starting from a candidate `i`
with `i % 6 = 5` such that every divisor of `n` whose square is at most `n`
is at least `i`, the loop answers 1 exactly when `n` has no divisor `d ≥ 2`
with `d * d ≤ n`.  (Here `n` is odd, not divisible by 3, and at least 5, as
established by `is_prime` before entering the loop.) -/
theorem primeLoop_eq_one_iff :
    ∀ (fuel : Nat) (n i : Int), (n + 1 - i).toNat ≤ fuel →
      5 ≤ n → ¬ (2:Int) ∣ n → ¬ (3:Int) ∣ n →
      5 ≤ i → i % 6 = 5 →
      (∀ d : Int, 2 ≤ d → d ∣ n → d * d ≤ n → i ≤ d) →
      (primeLoop n i = 1 ↔ ∀ d : Int, 2 ≤ d → d * d ≤ n → ¬ d ∣ n) := by
  intro fuel
  induction fuel with
  | zero =>
      intro n i hfuel h5 h2 h3 hi5 hi6 hmin
      by_cases hgo : i * i ≤ n
      · have hin : i ≤ n := by nlinarith
        omega
      · rw [primeLoop]
        simp only [hgo, if_false]
        refine ⟨fun _ d hd2 hdd hdvd => ?_, fun _ => trivial⟩
        have hid := hmin d hd2 hdvd hdd
        nlinarith
  | succ fuel ih =>
      intro n i hfuel h5 h2 h3 hi5 hi6 hmin
      rw [primeLoop]
      by_cases hgo : i * i ≤ n
      · have hin : i ≤ n := by nlinarith
        by_cases hdiv : n.fmod i = 0 ∨ n.fmod (i + 2) = 0
        · simp only [hgo, if_true, hdiv, if_false]
          refine iff_of_false (by norm_num) ?_
          intro hR
          rcases hdiv with hdi | hdi2
          · have hidvd : i ∣ n := (fmod_eq_zero_iff_dvd n i (by omega)).mp hdi
            exact hR i (by omega) hgo hidvd
          · have hidvd : (i + 2) ∣ n :=
              (fmod_eq_zero_iff_dvd n (i + 2) (by omega)).mp hdi2
            by_cases hsq : (i + 2) * (i + 2) ≤ n
            · exact hR (i + 2) (by omega) hsq hidvd
            · obtain ⟨d, hd2, hdd, hdvd⟩ :=
                cofactor_small n (i + 2) (by omega) hidvd (by nlinarith)
                  (by omega)
              exact hR d hd2 hdd hdvd
        · simp only [hgo, if_true, hdiv, if_false]
          push_neg at hdiv
          obtain ⟨hnd1, hnd2⟩ := hdiv
          have hndvd1 : ¬ i ∣ n := fun hc =>
            hnd1 ((fmod_eq_zero_iff_dvd n i (by omega)).mpr hc)
          have hndvd2 : ¬ (i + 2) ∣ n := fun hc =>
            hnd2 ((fmod_eq_zero_iff_dvd n (i + 2) (by omega)).mpr hc)
          refine ih n (i + 6) (by omega) h5 h2 h3 (by omega) (by omega) ?_
          intro d hd2 hdvd hdd
          have hid := hmin d hd2 hdvd hdd
          by_contra hlt
          have hcases : d = i ∨ d = i + 1 ∨ d = i + 2 ∨ d = i + 3
              ∨ d = i + 4 ∨ d = i + 5 := by omega
          rcases hcases with hd | hd | hd | hd | hd | hd
          · exact hndvd1 (hd ▸ hdvd)
          · have hdv2 : (2:Int) ∣ d := by omega
            exact h2 (dvd_trans hdv2 hdvd)
          · exact hndvd2 (hd ▸ hdvd)
          · have hdv2 : (2:Int) ∣ d := by omega
            exact h2 (dvd_trans hdv2 hdvd)
          · have hdv3 : (3:Int) ∣ d := by omega
            exact h3 (dvd_trans hdv3 hdvd)
          · have hdv2 : (2:Int) ∣ d := by omega
            exact h2 (dvd_trans hdv2 hdvd)
      · simp only [hgo, if_false]
        refine ⟨fun _ d hd2 hdd hdvd => ?_, fun _ => trivial⟩
        have hid := hmin d hd2 hdvd hdd
        nlinarith

/-- For `n ≥ 2`, having no divisor `d ≥ 2` with `d * d ≤ n` is exactly
primality of `n.toNat`. -/
theorem noSmallDiv_iff_prime (n : Int) (h2 : 2 ≤ n) :
    (∀ d : Int, 2 ≤ d → d * d ≤ n → ¬ d ∣ n) ↔ Nat.Prime n.toNat := by
  have hn : (n.toNat : Int) = n := Int.toNat_of_nonneg (by omega)
  constructor
  · intro hns
    by_contra hnp
    have hmf := Nat.minFac_prime (show n.toNat ≠ 1 by omega)
    have hdvd := Nat.minFac_dvd n.toNat
    have hsq : n.toNat.minFac ^ 2 ≤ n.toNat :=
      Nat.minFac_sq_le_self (by omega) hnp
    refine hns (n.toNat.minFac : Int) ?_ ?_ ?_
    · exact_mod_cast hmf.two_le
    · have h' : (n.toNat.minFac : Int) ^ 2 ≤ (n.toNat : Int) := by
        exact_mod_cast hsq
      rw [hn] at h'
      nlinarith [h']
    · rw [← hn]
      exact_mod_cast hdvd
  · intro hp d hd2 hdd hdvd
    have hdpos : 0 ≤ d := by omega
    have hdn : d.toNat ∣ n.toNat := by
      have h' : (d.toNat : Int) ∣ (n.toNat : Int) := by
        rw [Int.toNat_of_nonneg hdpos, hn]
        exact hdvd
      exact_mod_cast h'
    rcases hp.eq_one_or_self_of_dvd d.toNat hdn with h1 | hs
    · omega
    · have hdn2 : d = n := by omega
      subst hdn2
      nlinarith

/-- `envLo` honours the `randint` contract. -/
theorem validEnv_envLo : ValidEnv envLo :=
  ⟨fun _ _ lo hi h => ⟨le_refl lo, h⟩, fun _ lo hi h => ⟨le_refl lo, h⟩⟩

/-- The loop body of `array_operations` never raises and preserves both the
draw family and the list length 10, given in-contract draws. -/
theorem arrayStep_some (f : DrawFn) (hf : ValidFn f) :
    ∀ (i : Nat) (s : RandState × List Int × Int),
      (s.1.fn = f ∧ s.2.1.length = 10) →
      ∃ s', arrayStep i s = some s' ∧ (s'.1.fn = f ∧ s'.2.1.length = 10) := by
  intro i s hP
  obtain ⟨st, arr, sv⟩ := s
  obtain ⟨hfn, hlen⟩ := hP
  have hfn' : st.fn = f := hfn
  have hlen' : arr.length = 10 := hlen
  have hd : 0 ≤ st.fn st.pos 0 9 ∧ st.fn st.pos 0 9 ≤ 9 := by
    rw [hfn']
    exact hf st.pos 0 9 (by norm_num)
  set idx := st.fn st.pos 0 9 with hidx
  have h0 : ¬ idx < 0 := by omega
  have hidxnat : idx.toNat < arr.length := by rw [hlen']; omega
  have hcond : 0 ≤ idx ∧ idx < (arr.length : Int) := by
    rw [hlen']; constructor <;> omega
  have hget : pyGet arr idx = some (arr.get ⟨idx.toNat, hidxnat⟩) := by
    unfold pyGet pyIndex
    simp only [h0, if_false, hcond, if_pos, and_self, if_true]
    simp [List.get?_eq_get hidxnat]
  have hset : ∀ v : Int, pySet arr idx v = some (arr.set idx.toNat v) := by
    intro v
    unfold pySet pyIndex
    simp only [h0, if_false, hcond, if_pos, and_self, if_true]
    rfl
  simp only [arrayStep, randint, hget, Option.bind_some, hset,
    Option.map_some]
  refine ⟨_, rfl, ?_⟩
  by_cases hc : i % 1000 = 0 <;>
    simp [hc, hfn', List.length_set, hlen']

/-! ### Claim theorems -/

/-- **C2.** `divide(a, b)` returns the error tuple
`("error", "Division by zero")` exactly when `b = 0`, carries the `"ok"` tag
exactly when `b ≠ 0` (and then the payload is the floor quotient `a // b`),
and the caller's loop body consumes the tuple immediately: on the error tag
it increments `error_count`, on the ok tag it adds the quotient to
`success_sum`, and it never propagates any error (`resultStep` never returns
`none`). -/
theorem divide_spec (a b : Int) :
    (divide a b = ("error", Sum.inl "Division by zero") ↔ b = 0)
    ∧ ((divide a b).1 = "ok" ↔ b ≠ 0)
    ∧ (b ≠ 0 → divide a b = ("ok", Sum.inr (a.fdiv b)))
    ∧ (∀ st success_sum error_count, st.fn st.pos 1 100 = a →
        st.fn (st.pos + 1) 0 10 = b →
        resultStep 0 (st, success_sum, error_count) =
          some (⟨st.fn, st.pos + 2⟩,
            if b = 0 then (success_sum, error_count + 1)
            else (success_sum + a.fdiv b, error_count))) := by
  refine ⟨?_, ?_, ?_, ?_⟩
  · constructor
    · intro h
      by_contra hb
      simp [divide, hb] at h
    · intro h; simp [divide, h]
  · constructor
    · intro h
      by_contra hb
      simp [divide, hb] at h
    · intro h; simp [divide, h]
  · intro h; simp [divide, h]
  · intro st success_sum error_count ha hb
    by_cases h : b = 0
    · simp [resultStep, randint, ha, hb, divide, h]
    · simp [resultStep, randint, ha, hb, divide, h]

/-- Witness for C2 at concrete inputs `divide 7 2` and `divide 7 0`. -/
theorem divide_spec_witness :
    divide 7 2 = ("ok", Sum.inr 3) ∧ divide 7 0 = ("error", Sum.inl "Division by zero") := by
  constructor
  · have h := (divide_spec 7 2).2.2.1 (by norm_num)
    rw [h]; rfl
  · exact (divide_spec 7 0).1.mpr rfl

/-- **C9.** `increment` increases the counter's value by exactly 1; each
outer iteration of `ref_operations.main` builds a fresh `Counter(0)` and
increments it ten times, reaching 10; over the 10000 outer iterations the
total is 100000, printed as the only output line — independently of the
pseudo-random environment (the generator is seeded but never drawn from). -/
theorem ref_main_spec :
    (∀ c : Counter, (increment c).value = c.value + 1)
    ∧ ∀ env : Env, ref_main env = [OutLine.int 100000] := by
  constructor
  · intro c; rfl
  · intro env
    simp [ref_main, refLoop_total]

/-- **C4.** For every integer `n`, `is_prime n` is 1 when `n` is a prime
number and 0 otherwise; the implementation is trial division testing the
candidates `i` and `i + 2` (for `i = 5, 11, 17, …`) only while
`i * i ≤ n`, i.e. up to the square root of `n`. -/
theorem is_prime_correct (n : Int) :
    is_prime n = if 2 ≤ n ∧ Nat.Prime n.toNat then 1 else 0 := by
  by_cases h1 : n ≤ 1
  · have hc : ¬ (2 ≤ n ∧ Nat.Prime n.toNat) := fun h => by omega
    simp [is_prime, h1, hc]
  · push_neg at h1
    by_cases h3 : n ≤ 3
    · have hn23 : n = 2 ∨ n = 3 := by omega
      rcases hn23 with h | h <;> subst h <;>
        simp [is_prime, Nat.prime_two, Nat.prime_three]
    · push_neg at h3
      by_cases hdv : n.fmod 2 = 0 ∨ n.fmod 3 = 0
      · have hnp : ¬ Nat.Prime n.toNat := by
          intro hp
          rcases hdv with h | h
          · have h2n : (2:Int) ∣ n :=
              (fmod_eq_zero_iff_dvd n 2 (by norm_num)).mp h
            have h2t : (2:Nat) ∣ n.toNat := by
              have h' : ((2:Nat) : Int) ∣ ((n.toNat : Nat) : Int) := by
                rw [Int.toNat_of_nonneg (show (0:Int) ≤ n by omega)]
                exact_mod_cast h2n
              exact_mod_cast h'
            rcases hp.eq_one_or_self_of_dvd 2 h2t with h' | h' <;> omega
          · have h3n : (3:Int) ∣ n :=
              (fmod_eq_zero_iff_dvd n 3 (by norm_num)).mp h
            have h3t : (3:Nat) ∣ n.toNat := by
              have h' : ((3:Nat) : Int) ∣ ((n.toNat : Nat) : Int) := by
                rw [Int.toNat_of_nonneg (show (0:Int) ≤ n by omega)]
                exact_mod_cast h3n
              exact_mod_cast h'
            rcases hp.eq_one_or_self_of_dvd 3 h3t with h' | h' <;> omega
        have hc : ¬ (2 ≤ n ∧ Nat.Prime n.toNat) := fun h => hnp h.2
        simp [is_prime, show ¬ n ≤ 1 by omega, show ¬ n ≤ 3 by omega, hdv, hc]
      · push_neg at hdv
        obtain ⟨hf2, hf3⟩ := hdv
        have h2n : ¬ (2:Int) ∣ n := fun hc =>
          hf2 ((fmod_eq_zero_iff_dvd n 2 (by norm_num)).mpr hc)
        have h3n : ¬ (3:Int) ∣ n := fun hc =>
          hf3 ((fmod_eq_zero_iff_dvd n 3 (by norm_num)).mpr hc)
        have h5 : 5 ≤ n := by
          by_contra hcon
          have h4 : n = 4 := by omega
          exact h2n (h4 ▸ ⟨2, by norm_num⟩)
        have hmin5 : ∀ d : Int, 2 ≤ d → d ∣ n → d * d ≤ n → 5 ≤ d := by
          intro d hd2 hdvd hdd
          by_contra hlt
          have hcases : d = 2 ∨ d = 3 ∨ d = 4 := by omega
          rcases hcases with h | h | h
          · exact h2n (h ▸ hdvd)
          · exact h3n (h ▸ hdvd)
          · exact h2n (dvd_trans ⟨2, by norm_num⟩ (h ▸ hdvd))
        have hiff := primeLoop_eq_one_iff (n + 1 - 5).toNat n 5 le_rfl h5
          h2n h3n (by norm_num) (by norm_num) hmin5
        have hiff2 := noSmallDiv_iff_prime n (by omega)
        have hzo := primeLoop_eq_zero_or_one (n + 1 - 5).toNat n 5 le_rfl
        have hup : is_prime n = primeLoop n 5 := by
          simp [is_prime, show ¬ n ≤ 1 by omega, show ¬ n ≤ 3 by omega,
            hf2, hf3]
        rw [hup]
        by_cases hp : Nat.Prime n.toNat
        · rw [if_pos ⟨by omega, hp⟩]
          exact hiff.mpr (hiff2.mpr hp)
        · rw [if_neg (fun hc => hp hc.2)]
          rcases hzo with h0 | h1'
          · exact h0
          · exact absurd (hiff2.mp (hiff.mp h1')) hp

/-- **C5.** For all integers `a ≥ 1` and `b ≥ 1` (the ranges `main` actually
passes, both drawn from `[1, 1000]`), the script's iterative Euclidean `gcd`
is defined (its remainder loop terminates) and returns the greatest common
divisor of `a` and `b`. -/
theorem gcd_correct (a b : Int) (ha : 1 ≤ a) (hb : 1 ≤ b) :
    gcd a b = (Int.gcd a b : Int) :=
  gcd_nonneg_eq b.toNat b le_rfl (by omega) a (by omega)

/-- Witness for C5 at `a = 12`, `b = 18`. -/
theorem gcd_correct_witness :
    1 ≤ (12 : Int) ∧ 1 ≤ (18 : Int) ∧ gcd 12 18 = 6 := by
  refine ⟨by norm_num, by norm_num, ?_⟩
  have h := gcd_correct 12 18 (by norm_num) (by norm_num)
  rw [h]
  rfl

/-- **C3.** No division or modulus whose divisor is not itself guarded can
divide by zero: in `arithmetic_operations` the divisor `b % 10 + 1` is at
least 1 for every `b` drawn from `[1, 100]` (so the checked arithmetic main
never errors and agrees with the unchecked one, for every environment), and
in `gcd` the `a % b` is only evaluated while `b != 0`, so the checked `gcd`
never errors either. -/
theorem no_division_by_zero :
    (∀ b : Int, 1 ≤ b → b ≤ 100 → 1 ≤ b.fmod 10 + 1)
    ∧ (∀ env : Env, arithmetic_mainChecked env = some (arithmetic_main env))
    ∧ (∀ a b : Int, gcdChecked a b = some (gcd a b)) := by
  refine ⟨?_, ?_, ?_⟩
  · intro b _ _
    have h := Int.fmod_nonneg' b (show (0:Int) < 10 by norm_num)
    omega
  · intro env
    simp [arithmetic_mainChecked, arithmetic_main, arithResult,
      forLoopM_eq_some arithStep arithStepChecked arithStepChecked_eq 100000]
  · intro a b
    exact gcdChecked_eq b.natAbs b le_rfl a

/-- Witness for C3 at `b = 37` and at `gcd`'s inputs `35, 21`. -/
theorem no_division_by_zero_witness :
    (1 ≤ (37 : Int) ∧ (37 : Int) ≤ 100 ∧ 1 ≤ Int.fmod 37 10 + 1)
    ∧ gcdChecked 35 21 = some (gcd 35 21) :=
  ⟨⟨by norm_num, by norm_num,
    no_division_by_zero.1 37 (by norm_num) (by norm_num)⟩,
   no_division_by_zero.2.2 35 21⟩

/-- **C7, counterexample.** Not every accumulator is bounded by a modulo
reduction: in `arithmetic_operations`, with every draw at its legal upper
bound 100, the printed accumulator `result` reaches 1030000000, far above
every modulus occurring in the scripts (the largest is 1000000) — no modulo
is ever applied to it. -/
theorem arith_result_exceeds_every_modulus :
    arithResult envHi 100000 = 1030000000 ∧ 1000000 < arithResult envHi 100000 := by
  have h : arithResult envHi 100000 = 1030000000 := by
    show (forLoop arithStep 100000 (envHi.seedState 42, 0)).2 = 1030000000
    have e : envHi.seedState 42 = (⟨hiFn, 0⟩ : RandState) := rfl
    rw [e, arith_hi_formula 100000 0 0]
    norm_num
  exact ⟨h, by rw [h]; norm_num⟩

/-- **C7, amended.** Accumulators that the code does reduce stay at or below
their modulus — `nested_loops`' `sum_val` is at most 1000000 after every
iteration (any prefix of the run: `oi` full outer iterations plus `ij`
further inner iterations) — but not every script's accumulator is reduced:
`arithmetic_operations`' `result` is never reduced by any modulus and grows
linearly, by 10300 per iteration when every draw is at its upper bound. -/
theorem accumulator_bounds_amended :
    (∀ oi ij : Nat, nestedAt oi ij ≤ 1000000)
    ∧ (∀ n : Nat, arithResult envHi n = 10300 * n) := by
  constructor
  · intro oi ij
    unfold nestedAt
    cases ij with
    | zero =>
        simp only [forLoop]
        cases oi with
        | zero => simp [forLoop]
        | succ k =>
            simp only [forLoop]
            unfold nestedOuterStep
            exact nestedInner_le k 500 _ (by norm_num)
    | succ m => exact nestedInner_le oi (m + 1) _ (by omega)
  · intro n
    show (forLoop arithStep n (envHi.seedState 42, 0)).2 = 10300 * n
    have e : envHi.seedState 42 = (⟨hiFn, 0⟩ : RandState) := rfl
    rw [e, arith_hi_formula n 0 0]
    norm_num

/-- **C8, counterexample.** It is not true that exactly one script writes a
non-integer line: under the environment `envLo` (and indeed any
environment), two scripts do — `string_operations` (the accumulated string)
and `tuple_operations` (the formatted checksum string). -/
theorem nonint_script_count_is_two :
    (scriptNonIntFlags envLo).count true = 2
    ∧ (scriptNonIntFlags envLo).count true ≠ 1 := by
  have h : scriptNonIntFlags envLo =
      [false, false, false, false, false, false, false, false, false,
       true, true] := by
    simp [scriptNonIntFlags, arith_flags, array_flags, function_calls_flags,
      math_flags, memory_flags, nested_flags, option_flags, ref_flags,
      result_flags, string_flags, tuple_flags]
  rw [h]
  constructor
  · rfl
  · decide

/-- **C8, amended.** Every script writes only plain integers to standard
output, with the exception of exactly two scripts: `string_operations`
additionally writes its accumulated comma-separated string, and
`tuple_operations` additionally writes its formatted checksum string.  In
particular `array_operations`, which prints its container's contents,
prints them as plain integers. -/
theorem nonint_scripts_exactly_string_and_tuple (env : Env) :
    scriptNonIntFlags env =
      [false, false, false, false, false, false, false, false, false,
       true, true] := by
  simp [scriptNonIntFlags, arith_flags, array_flags, function_calls_flags,
    math_flags, memory_flags, nested_flags, option_flags, ref_flags,
    result_flags, string_flags, tuple_flags]

/-- **C10.** In `array_operations`, every list access (the read `arr[idx]`
and the write `arr[idx] = new_val`) is in bounds for every environment that
honours the `randint` contract: `idx` is always drawn from `[0, 9]`, the
list starts with exactly ten elements and nothing in the loop body changes
its length, so the whole 50000-iteration loop runs without an `IndexError`
(`arrayLoop` is `some`), the final list still has length 10, and `main`
prints `sum_val` followed by the ten elements. -/
theorem array_main_inbounds (env : Env) (henv : ValidEnv env) :
    ∃ st arr sv, arrayLoop env = some (st, arr, sv) ∧ arr.length = 10
      ∧ array_main env = some (OutLine.int sv :: arr.map OutLine.int) := by
  obtain ⟨s', hs', hfn', hlen'⟩ :=
    forLoopM_inv (fun s => s.1.fn = env.seeded 42 ∧ s.2.1.length = 10)
      arrayStep (arrayStep_some (env.seeded 42) (henv.1 42)) 50000
      (env.seedState 42, [0, 1, 2, 3, 4, 5, 6, 7, 8, 9], 0) ⟨rfl, rfl⟩
  obtain ⟨st, arr, sv⟩ := s'
  refine ⟨st, arr, sv, hs', hlen', ?_⟩
  simp [array_main, arrayLoop] at hs' ⊢
  simp [hs']
  exact ⟨st, arr, sv, ⟨rfl, rfl, rfl⟩, rfl, rfl⟩

/-- Witness for C10: the environment drawing every `randint` at its lower
bound is in contract, and under it the loop completes with a length-10
list. -/
theorem array_main_inbounds_witness :
    ValidEnv envLo
    ∧ ∃ st arr sv, arrayLoop envLo = some (st, arr, sv) ∧ arr.length = 10
        ∧ array_main envLo = some (OutLine.int sv :: arr.map OutLine.int) :=
  ⟨validEnv_envLo, array_main_inbounds envLo validEnv_envLo⟩

/-- **C1.** Evaluation of the defect: `string_operations.main` draws from
the pseudo-random generator without ever seeding it, so its output depends
on the generator's OS-entropy initial state.  `envLo` and `envLoHi` model
two executions of the same process image: they agree on the behaviour of
the generator after every `seed(s)` call (`seeded` components are equal),
and differ only in the never-explicitly-seeded state — yet
`string_operations` prints different lines in the two executions.  Every
other script either seeds with 42 before drawing or never draws at all. -/
theorem string_main_not_reproducible :
    envLo.seeded = envLoHi.seeded ∧ string_main envLo ≠ string_main envLoHi := by
  refine ⟨rfl, ?_⟩
  intro h
  obtain ⟨t1, h1⟩ := stringRes_grows 4999 ⟨loFn, 1⟩ ['0', ','] 2
  obtain ⟨t2, h2⟩ := stringRes_grows 4999 ⟨hiFn, 1⟩ ['9', ','] 2
  have s1 : stringStep 0 (envLo.initState, ([], (0 : Int)))
      = (⟨loFn, 1⟩, (['0', ','], (2 : Int))) := rfl
  have s2 : stringStep 0 (envLoHi.initState, ([], (0 : Int)))
      = (⟨hiFn, 1⟩, (['9', ','], (2 : Int))) := rfl
  have e1 : (forLoop stringStep 5000 (envLo.initState, [], 0)).2.1
      = '0' :: (',' :: t1) := by
    rw [forLoop_succ_first stringStep (fun _ _ _ => rfl) 4999, s1]
    simpa using h1
  have e2 : (forLoop stringStep 5000 (envLoHi.initState, [], 0)).2.1
      = '9' :: (',' :: t2) := by
    rw [forLoop_succ_first stringStep (fun _ _ _ => rfl) 4999, s2]
    simpa using h2
  have hh := congrArg (fun l : List OutLine => l.get? 1) h
  simp only [string_main, List.get?] at hh
  rw [e1, e2] at hh
  simp only [Option.some.injEq, OutLine.str.injEq] at hh
  injection hh with hc _
  exact absurd hc (by decide)

/-- **C6.** `fibonacci` terminates on every integer input: the recursion
depth is bounded (47 stack levels always suffice, because the guards
`n <= 1` and `n > 46` confine recursion to `2 ≤ n ≤ 46`, always on the
strictly smaller `n - 1` and `n - 2`), so the fuelled evaluator at fuel 47
returns a value — the value of the total function `fibonacci` — for every
integer `n`. -/
theorem fibonacci_terminates (n : Int) :
    ∃ r : Int, fibonacciFuel 47 n = some r ∧ fibonacci n = r :=
  ⟨fibonacci n, fibonacciFuel_eq 47 n (by omega), rfl⟩

end Etch
